import Mathlib

/-!
# Verification of the template review/enhancement core

Shallow embedding of the template analysis, validation and enhancement
engine (TypeScript sources `src/MCP/template-review-server/src/validators/rules.ts`,
`src/MCP/template-review-server/src/analyzers/structure.ts`, and the unnamed
modules containing `analyzeContent` and `enhanceTemplate`).

Text is modelled as `List Char`; JavaScript regular-expression operations used
by the code are translated into explicit scanning functions with the exact
semantics of the concrete patterns appearing in the source.  JavaScript
numbers are modelled as `ℚ` (the score arithmetic in the source only involves
decimal constants).  The two operations that contain a JavaScript-partial
step (an array index whose failure would raise a `TypeError`) are embedded in
`Except String`.
-/

namespace TemplateReview

instance {ε α : Type} [DecidableEq ε] [DecidableEq α] : DecidableEq (Except ε α) :=
  fun x y =>
    match x, y with
    | .ok a, .ok b =>
      if h : a = b then isTrue (by rw [h])
      else isFalse (fun hc => h (Except.ok.inj hc))
    | .error a, .error b =>
      if h : a = b then isTrue (by rw [h])
      else isFalse (fun hc => h (Except.error.inj hc))
    | .ok _, .error _ => isFalse (fun hc => Except.noConfusion hc)
    | .error _, .ok _ => isFalse (fun hc => Except.noConfusion hc)

/-! ## Rational comparisons

JavaScript's `>`, `Math.max` and `Math.min` on numbers, expressed through
`Rat.blt` so that every score computation evaluates by kernel reduction. -/

/-- `a < b` on scores. -/
def qlt (a b : ℚ) : Bool := Rat.blt a b

/-- `Math.max`. -/
def qmax (a b : ℚ) : ℚ := if qlt a b then b else a

/-- `Math.min`. -/
def qmin (a b : ℚ) : ℚ := if qlt a b then a else b

/-! ## Character classes (ASCII, as used by the JS regexes `\s`, `\w`, …) -/

/-- JS whitespace (`\s`, `String.prototype.trim`), restricted to ASCII. -/
def isWsCh (c : Char) : Bool :=
  c = ' ' || c = '\t' || c = '\n' || c = '\r' || c = '\x0b' || c = '\x0c'

/-- JS `\w` word character: `[A-Za-z0-9_]`. -/
def isWordChar (c : Char) : Bool :=
  ('a' ≤ c && c ≤ 'z') || ('A' ≤ c && c ≤ 'Z') || ('0' ≤ c && c ≤ '9') || c = '_'

/-- Character class `[\w-]` used by the variable patterns. -/
def isWordHyphen (c : Char) : Bool :=
  isWordChar c || c = '-'

/-- Sentence terminators, class `[.!?]`. -/
def isSentEnd (c : Char) : Bool :=
  c = '.' || c = '!' || c = '?'

/-- Bullet glyph class `[-*•]`. -/
def isBulletGlyph (c : Char) : Bool :=
  c = '-' || c = '*' || c = '•'

/-- A parenthesis, i.e. a character of the class `[()]`. -/
def isParenCh (c : Char) : Bool :=
  c = '(' || c = ')'

/-- Characters removed when normalizing a variable name:
the class `[{}\[\]$]` of `formatTemplateVariables`. -/
def isVarPunct (c : Char) : Bool :=
  c = '\x7b' || c = '\x7d' || c = '[' || c = ']' || c = '$'

/-- Uppercase ASCII letter, class `[A-Z]`. -/
def isUpperAZ (c : Char) : Bool :=
  'A' ≤ c && c ≤ 'Z'

/-! ## Basic list-of-characters utilities -/

/-- ASCII lowercase of a text, modelling `String.prototype.toLowerCase`. -/
def lowerList (s : List Char) : List Char :=
  s.map Char.toLower

/-- ASCII uppercase of a text, modelling `String.prototype.toUpperCase`. -/
def upperList (s : List Char) : List Char :=
  s.map Char.toUpper

/-- Exact prefix test. -/
def startsWithList : List Char → List Char → Bool
  | [], _ => true
  | _ :: _, [] => false
  | p :: ps, c :: cs => p = c && startsWithList ps cs

/-- Case-insensitive prefix test (both sides lowered). -/
def startsWithCI (p s : List Char) : Bool :=
  startsWithList (lowerList p) (lowerList s)

/-- Exact suffix test. -/
def endsWithList (p s : List Char) : Bool :=
  startsWithList p.reverse s.reverse

/-- Substring containment, modelling `String.prototype.includes` /
a `.test` of a pattern that is a plain literal. -/
def containsSub (p : List Char) : List Char → Bool
  | [] => startsWithList p []
  | c :: cs => startsWithList p (c :: cs) || containsSub p cs

/-- Split on a single separator character, modelling `String.prototype.split`
with a one-character separator: `"a\nb".split('\n') = ["a","b"]`,
`"".split('\n') = [""]`. -/
def splitOnChar (sep : Char) : List Char → List (List Char)
  | [] => [[]]
  | c :: cs =>
    match splitOnChar sep cs with
    | [] => [[]]
    | r :: rs => if c = sep then [] :: r :: rs else (c :: r) :: rs

/-- The lines of a text, `content.split('\n')`. -/
def splitOnNl (s : List Char) : List (List Char) :=
  splitOnChar '\n' s

/-- Join with a separator character (inverse of `splitOnChar`). -/
def joinSep (sep : Char) : List (List Char) → List Char
  | [] => []
  | [l] => l
  | l :: l' :: ls => l ++ sep :: joinSep sep (l' :: ls)

/-- Join lines with `'\n'`. -/
def joinNl (ls : List (List Char)) : List Char :=
  joinSep '\n' ls

/-- Split on maximal runs of separator characters, modelling
`String.prototype.split` with a regex of the shape `/[..]+/`:
`"a..b".split(/[.!?]+/) = ["a","b"]`, `"".split(/[.!?]+/) = [""]`,
`"a.".split(/[.!?]+/) = ["a",""]`. -/
def splitRuns (p : Char → Bool) : List Char → List (List Char)
  | [] => [[]]
  | c :: cs =>
    match splitRuns p cs with
    | [] => [[]]
    | r :: rs =>
      if p c then
        match cs with
        | [] => [] :: r :: rs
        | d :: _ => if p d then r :: rs else [] :: r :: rs
      else (c :: r) :: rs

/-- `String.prototype.trim` (whitespace stripped from both ends). -/
def trimWs (s : List Char) : List Char :=
  ((s.dropWhile isWsCh).reverse.dropWhile isWsCh).reverse

/-- Strip trailing spaces and tabs from a line: one application of the
per-line regex `[ \t]+$`. -/
def stripLineEndWs (l : List Char) : List Char :=
  (l.reverse.dropWhile (fun c => c = ' ' || c = '\t')).reverse

/-- Does a line end in a space or tab (the test `/[ \t]+$/m` for this line)? -/
def hasTrailingWsTab (l : List Char) : Bool :=
  match l.reverse with
  | [] => false
  | c :: _ => c = ' ' || c = '\t'

/-! ## Whole-word search (`\bterm\b`)

All search terms used by the source consist solely of word characters, so the
two `\b` anchors mean: the character before the occurrence (if any) is not a
word character, and neither is the character after it. -/

/-- Does `term` occur in the text headed by `s`, where `prev` is the character
immediately before `s` (if any)?  `ci` selects case-insensitive matching;
when `ci` is set, `term` must already be lowercased. -/
def wholeWordGo (ci : Bool) (term : List Char) (prev : Option Char) :
    List Char → Bool
  | [] => false
  | c :: cs =>
    let here := (if ci then startsWithCI term (c :: cs)
                 else startsWithList term (c :: cs))
      && (match prev with | none => true | some p => !isWordChar p)
      && (match (c :: cs).drop term.length with
          | [] => true
          | d :: _ => !isWordChar d)
    here || wholeWordGo ci term (some c) cs

/-- `new RegExp('\\b' + term + '\\b', 'i').test(content)`. -/
def containsWholeWordCI (term s : List Char) : Bool :=
  wholeWordGo true (lowerList term) none s

/-- `/\bterm\b/.test(content)` (case-sensitive). -/
def containsWholeWordCS (term s : List Char) : Bool :=
  wholeWordGo false term none s

/-! ## Section labels -/

/-- The canonical section order of `rules.ts`. -/
def sectionOrder : List String := ["ROLE", "CONTEXT", "TASK", "FORMAT", "OUTPUT"]

/-- If the line starts (case-insensitively) with a recognized section label
followed by a colon, the length of that `LABEL:` prefix. -/
def labelColonLenCI (l : List Char) : Option Nat :=
  if startsWithCI ("ROLE:").data l then some 5
  else if startsWithCI ("CONTEXT:").data l then some 8
  else if startsWithCI ("TASK:").data l then some 5
  else if startsWithCI ("FORMAT:").data l then some 7
  else if startsWithCI ("OUTPUT:").data l then some 7
  else none

/-- The text matched by `^(ROLE|CONTEXT|TASK|FORMAT|OUTPUT):/i` on this line,
if any (the `LABEL:` prefix as it literally appears). -/
def headerOfLine (l : List Char) : Option (List Char) :=
  (labelColonLenCI l).map l.take

/-- The uppercased captured label (`match[1].toUpperCase()`) of
`^(ROLE|CONTEXT|TASK|FORMAT|OUTPUT):/i` on this line, if any. -/
def foundLabelOfLine (l : List Char) : Option String :=
  if startsWithCI ("ROLE:").data l then some "ROLE"
  else if startsWithCI ("CONTEXT:").data l then some "CONTEXT"
  else if startsWithCI ("TASK:").data l then some "TASK"
  else if startsWithCI ("FORMAT:").data l then some "FORMAT"
  else if startsWithCI ("OUTPUT:").data l then some "OUTPUT"
  else none

/-- `^PAT:/im.test(content)`: some line starts with the given prefix,
case-insensitively. -/
def testLineStartCI (p : List Char) (content : List Char) : Bool :=
  (splitOnNl content).any (startsWithCI p)

/-! ## Global regex scanning

`scanWith step` models `content.match(/pat/g)`: at each position the matcher
`step` is tried; on success the match is recorded and scanning resumes after
the matched text, otherwise scanning advances one character.  The recursion
is driven by a fuel equal to the input length, which suffices because every
`step` used below consumes at least one character when it succeeds
(the `…_shrink` theorems below; `scanWithFuel_eq_of_le` shows the result is
then independent of the fuel). -/

theorem length_dropWhile_le' (p : Char → Bool) (l : List Char) :
    (l.dropWhile p).length ≤ l.length := by
  induction l with
  | nil => simp [List.dropWhile]
  | cons c cs ih =>
    simp only [List.dropWhile, List.length_cons]
    split
    · omega
    · simp

def scanWithFuel (step : List Char → Option (List Char × List Char)) :
    Nat → List Char → List (List Char)
  | 0, _ => []
  | _ + 1, [] => []
  | fuel + 1, c :: cs =>
    match step (c :: cs) with
    | some (m, rest) => m :: scanWithFuel step fuel rest
    | none => scanWithFuel step fuel cs

def scanWith (step : List Char → Option (List Char × List Char))
    (s : List Char) : List (List Char) :=
  scanWithFuel step s.length s

theorem scanWithFuel_eq_of_le (step : List Char → Option (List Char × List Char))
    (hs : ∀ s m r, step s = some (m, r) → r.length < s.length) :
    ∀ f1 f2 s, s.length ≤ f1 → s.length ≤ f2 →
      scanWithFuel step f1 s = scanWithFuel step f2 s := by
  intro f1
  induction f1 with
  | zero =>
    intro f2 s h1 _
    have : s = [] := by
      cases s with
      | nil => rfl
      | cons c cs => simp at h1
    subst this
    cases f2 <;> rfl
  | succ f1 ih =>
    intro f2 s h1 h2
    cases s with
    | nil => cases f2 <;> rfl
    | cons c cs =>
      cases f2 with
      | zero => simp at h2
      | succ f2 =>
        simp only [scanWithFuel]
        cases hstep : step (c :: cs) with
        | none =>
          exact ih f2 cs (by simp at h1; omega) (by simp at h2; omega)
        | some mr =>
          obtain ⟨m, rest⟩ := mr
          have hlt := hs _ _ _ hstep
          simp only [List.length_cons] at h1 h2 hlt
          dsimp only
          rw [ih f2 rest (by omega) (by omega)]

/-- Matcher for `{{[^}]+}}` at the current position: two opening braces, a
nonempty maximal run of non-`}` characters, then two closing braces. -/
def dbraceStep : List Char → Option (List Char × List Char)
  | '\x7b' :: '\x7b' :: cs =>
    let inner := cs.takeWhile (fun c => c ≠ '\x7d')
    if inner = [] then none
    else
      match cs.dropWhile (fun c => c ≠ '\x7d') with
      | '\x7d' :: '\x7d' :: rest =>
        some ('\x7b' :: '\x7b' :: (inner ++ ['\x7d', '\x7d']), rest)
      | _ => none
  | _ => none

theorem dbraceStep_shrink : ∀ s m r, dbraceStep s = some (m, r) → r.length < s.length := by
  intro s m r h
  unfold dbraceStep at h
  split at h
  case h_2 => exact absurd h (by simp)
  case h_1 cs =>
    dsimp only at h
    split at h
    · exact absurd h (by simp)
    · split at h
      case h_1 rest hdrop =>
        have hle : ('\x7d' :: '\x7d' :: rest).length ≤ cs.length := by
          rw [← hdrop]; exact length_dropWhile_le' _ _
        simp only [List.length_cons] at hle
        cases h
        simp only [List.length_cons]
        omega
      case h_2 => exact absurd h (by simp)

/-- Matcher for the (malformed) pattern `[[]\w-]+]` of `validateVariables`:
a literal `[`, one word character, a literal `-`, then at least two closing
brackets (the greedy `]+` followed by a final `]`).  The match consumes the
whole maximal run of closing brackets. -/
def bracketBrokenStep : List Char → Option (List Char × List Char)
  | '[' :: c :: '-' :: cs =>
    if isWordChar c then
      let run := cs.takeWhile (fun d => d = ']')
      if run.length ≥ 2 then
        some ('[' :: c :: '-' :: run, cs.dropWhile (fun d => d = ']'))
      else none
    else none
  | _ => none

theorem bracketBrokenStep_shrink :
    ∀ s m r, bracketBrokenStep s = some (m, r) → r.length < s.length := by
  intro s m r h
  unfold bracketBrokenStep at h
  split at h
  case h_2 => exact absurd h (by simp)
  case h_1 c cs =>
    split at h
    · dsimp only at h
      split at h
      · cases h
        have := length_dropWhile_le' (fun d => d = ']') cs
        simp only [List.length_cons]
        omega
      · exact absurd h (by simp)
    · exact absurd h (by simp)

/-- Matcher for `\${[\w-]+}`: a dollar, an opening brace, a nonempty maximal
run of `[\w-]` characters, then a closing brace. -/
def dollarStep : List Char → Option (List Char × List Char)
  | '$' :: '\x7b' :: cs =>
    let inner := cs.takeWhile isWordHyphen
    if inner = [] then none
    else
      match cs.dropWhile isWordHyphen with
      | '\x7d' :: rest => some ('$' :: '\x7b' :: (inner ++ ['\x7d']), rest)
      | _ => none
  | _ => none

theorem dollarStep_shrink : ∀ s m r, dollarStep s = some (m, r) → r.length < s.length := by
  intro s m r h
  unfold dollarStep at h
  split at h
  case h_2 => exact absurd h (by simp)
  case h_1 cs =>
    dsimp only at h
    split at h
    · exact absurd h (by simp)
    · split at h
      case h_1 rest hdrop =>
        have hle : ('\x7d' :: rest).length ≤ cs.length := by
          rw [← hdrop]; exact length_dropWhile_le' _ _
        simp only [List.length_cons] at hle
        cases h
        simp only [List.length_cons]
        omega
      case h_2 => exact absurd h (by simp)

/-- Matcher for a flat parenthesized group `\([^()]*\)`: an opening paren, a
maximal (possibly empty) run of non-paren characters, then a closing paren. -/
def parenGroupStep : List Char → Option (List Char × List Char)
  | '(' :: cs =>
    let inner := cs.takeWhile (fun c => !isParenCh c)
    match cs.dropWhile (fun c => !isParenCh c) with
    | ')' :: rest => some ('(' :: (inner ++ [')']), rest)
    | _ => none
  | _ => none

theorem parenGroupStep_shrink :
    ∀ s m r, parenGroupStep s = some (m, r) → r.length < s.length := by
  intro s m r h
  unfold parenGroupStep at h
  split at h
  case h_2 => exact absurd h (by simp)
  case h_1 cs =>
    dsimp only at h
    split at h
    case h_1 rest hdrop =>
      have hle : (')' :: rest).length ≤ cs.length := by
        rw [← hdrop]; exact length_dropWhile_le' _ _
      simp only [List.length_cons] at hle
      cases h
      simp only [List.length_cons]
      omega
    case h_2 => exact absurd h (by simp)

/-- Matcher for the combined pattern `{{[^}]+}}|\[[\w-]+]|\${[\w-]+}` of
`formatTemplateVariables` (alternatives tried left to right). -/
def combinedVarStep (s : List Char) : Option (List Char × List Char) :=
  match dbraceStep s with
  | some mr => some mr
  | none =>
    match s with
    | '[' :: cs =>
      let inner := cs.takeWhile isWordHyphen
      if inner = [] then dollarStep s
      else
        match cs.dropWhile isWordHyphen with
        | ']' :: rest => some ('[' :: (inner ++ [']']), rest)
        | _ => dollarStep s
    | _ => dollarStep s

theorem combinedVarStep_shrink :
    ∀ s m r, combinedVarStep s = some (m, r) → r.length < s.length := by
  intro s m r h
  unfold combinedVarStep at h
  split at h
  case h_1 mr heq =>
    cases mr with
    | mk m' r' =>
      cases h
      exact dbraceStep_shrink _ _ _ heq
  case h_2 =>
    split at h
    case h_2 => exact dollarStep_shrink _ _ _ h
    case h_1 =>
      rename_i cs hnone
      dsimp only at h
      split at h
      · exact dollarStep_shrink _ _ _ h
      · split at h
        case h_1 rest hdrop =>
          have hle : (']' :: rest).length ≤ cs.length := by
            rw [← hdrop]; exact length_dropWhile_le' _ _
          simp only [List.length_cons] at hle
          cases h
          simp only [List.length_cons]
          omega
        case h_2 => exact dollarStep_shrink _ _ _ h

/-- `content.match(/{{[^}]+}}/g) || []`. -/
def scanDbrace : List Char → List (List Char) :=
  scanWith dbraceStep

/-- `content.match(/[[]\w-]+]/g) || []` (the malformed bracket pattern). -/
def scanBracketBroken : List Char → List (List Char) :=
  scanWith bracketBrokenStep

/-- `content.match(/\${[\w-]+}/g) || []`. -/
def scanDollar : List Char → List (List Char) :=
  scanWith dollarStep

/-- `content.match(/\([^()]*\)/g) || []`. -/
def scanParenGroups : List Char → List (List Char) :=
  scanWith parenGroupStep

/-- `content.match(/{{[^}]+}}|\[[\w-]+]|\${[\w-]+}/g) || []`. -/
def scanCombinedVars : List Char → List (List Char) :=
  scanWith combinedVarStep

/-! ## Nested parentheses test (`/\([^()]*\([^()]*\)[^()]*\)/`) -/

/-- Skip to the next parenthesis character, returning it and the rest. -/
def nextParen : List Char → Option (Char × List Char)
  | [] => none
  | c :: cs => if isParenCh c then some (c, cs) else nextParen cs

/-- Does the nested-parenthesis pattern match at this exact position? -/
def nestedAt : List Char → Bool
  | '(' :: r =>
    match nextParen r with
    | some ('(', r1) =>
      match nextParen r1 with
      | some (')', r2) =>
        match nextParen r2 with
        | some (')', _) => true
        | _ => false
      | _ => false
    | _ => false
  | _ => false

/-- `/\([^()]*\([^()]*\)[^()]*\)/.test(content)`. -/
def existsNested : List Char → Bool
  | [] => false
  | c :: cs => nestedAt (c :: cs) || existsNested cs

/-! ## The rule validator (`rules.ts`) -/

inductive Severity where
  | error
  | warning
deriving DecidableEq, Repr

structure Violation where
  rule : String
  message : String
  severity : Severity
deriving DecidableEq, Repr

structure ValidationResult where
  isValid : Bool
  violations : List Violation
deriving DecidableEq, Repr

/-- `indexOf` of JavaScript arrays: `-1` when absent. -/
def jsIndexOf : List String → String → Int
  | [], _ => -1
  | x :: xs, s =>
    if x = s then 0
    else
      let r := jsIndexOf xs s
      if r = -1 then -1 else r + 1

def orderMessage (s : String) : String :=
  "Section " ++ s ++ " is out of order. Expected order: ROLE, CONTEXT, TASK, FORMAT, OUTPUT"

/-- The `forEach` of the section-order check: one warning per section whose
index in the canonical order is smaller than the previously seen index. -/
def orderViolationsGo (lastIndex : Int) : List String → List Violation
  | [] => []
  | sec :: rest =>
    let currentIndex := jsIndexOf sectionOrder sec
    (if currentIndex < lastIndex then
        [⟨"section-order", orderMessage sec, Severity.warning⟩]
      else []) ++
    orderViolationsGo currentIndex rest

def orderViolations (found : List String) : List Violation :=
  orderViolationsGo (-1) found

/-- `validateStructure` of `rules.ts` (returning the pushed violations). -/
def validateStructure (content : List Char) : List Violation :=
  let roleP := testLineStartCI ("ROLE:").data content
  let contextP := testLineStartCI ("CONTEXT:").data content
  let taskP := testLineStartCI ("TASK:").data content
  let formatP := testLineStartCI ("FORMAT:").data content
    || testLineStartCI ("OUTPUT:").data content
  let missing :=
    (if !roleP then [⟨"required-sections", "Missing ROLE section", Severity.error⟩] else []) ++
    (if !contextP then [⟨"required-sections", "Missing CONTEXT section", Severity.error⟩] else []) ++
    (if !taskP then [⟨"required-sections", "Missing TASK section", Severity.error⟩] else []) ++
    (if !formatP then
        [⟨"required-sections", "Missing FORMAT/OUTPUT section", Severity.warning⟩]
      else [])
  let foundSections := (splitOnNl content).filterMap foundLabelOfLine
  missing ++ orderViolations foundSections

/-- The hedging terms of `validateContent`. -/
def ambiguousTerms : List String :=
  ["maybe", "probably", "possibly", "might", "could", "should", "would"]

/-- `validateContent` of `rules.ts`. -/
def validateContent (content : List Char) : List Violation :=
  let sentences := splitRuns isSentEnd content
  let sentenceV := sentences.foldr (fun s acc =>
    (if (trimWs s).length > 150 then
        [⟨"sentence-length", "Sentence exceeds recommended length of 150 characters",
          Severity.warning⟩]
      else []) ++ acc) []
  let nestedV :=
    if existsNested content then
      [⟨"nested-instructions", "Avoid nested parentheses in instructions", Severity.warning⟩]
    else []
  let ambiguousV := ambiguousTerms.foldr (fun t acc =>
    (if containsWholeWordCI t.data content then
        [⟨"ambiguous-language", "Avoid ambiguous terms like \"" ++ t ++ "\"",
          Severity.warning⟩]
      else []) ++ acc) []
  sentenceV ++ nestedV ++ ambiguousV

/-- Full-anchor test `^{{[\w-]+}}$` for a variable token: after `{{` and the
first inner character, the rest is inner `[\w-]` characters followed by
exactly `}}` (an inner character is never `}`, so the cases are disjoint). -/
def isCanonicalDbraceTail : List Char → Bool
  | [] => false
  | c :: cs =>
    if c = '\x7d' then cs == ['\x7d']
    else isWordHyphen c && isCanonicalDbraceTail cs

def isCanonicalDbrace : List Char → Bool
  | '\x7b' :: '\x7b' :: c :: cs => isWordHyphen c && isCanonicalDbraceTail cs
  | _ => false

/-- `validateVariables` of `rules.ts`.  Note that the bracket-variable pattern
in the source is the malformed `/[[]\w-]+]/g`. -/
def validateVariables (content : List Char) : List Violation :=
  let c1 := (scanDbrace content).length
  let c2 := (scanBracketBroken content).length
  let c3 := (scanDollar content).length
  let foundFormats := [c1, c2, c3].filter (fun n => n > 0)
  let formatV :=
    if foundFormats.length > 1 then
      [⟨"variable-format",
        "Inconsistent variable formats detected. Use \x7b\x7bvariableName\x7d\x7d format consistently",
        Severity.error⟩]
    else []
  let varTokens := scanDbrace content
  let namingV := varTokens.foldr (fun v acc =>
    (if isCanonicalDbrace v then []
     else
       [⟨"variable-naming",
         "Invalid variable format: " ++ String.mk v
           ++ ". Use alphanumeric characters and hyphens only",
         Severity.error⟩]) ++ acc) []
  let uniqueVars := (varTokens.map lowerList).dedup
  let usageV :=
    if uniqueVars.length = 0 && content.length > 500 then
      [⟨"variable-usage", "Consider using variables for dynamic content in longer templates",
        Severity.warning⟩]
    else []
  formatV ++ namingV ++ usageV

/-- Bullet detected by `^[-*•]\s/gm` on this line (`isLast` says whether the
line is the final one, i.e. not followed by a `'\n'` that the `\s` could
consume). -/
def lineBulletWs (l : List Char) (isLast : Bool) : Option Char :=
  match l with
  | [] => none
  | g :: rest =>
    if isBulletGlyph g then
      match rest with
      | [] => if isLast then none else some g
      | d :: _ => if isWsCh d then some g else none
    else none

def bulletWsGlyphs : List (List Char) → List Char
  | [] => []
  | [l] => (lineBulletWs l true).toList
  | l :: l' :: ls => (lineBulletWs l false).toList ++ bulletWsGlyphs (l' :: ls)

/-- `validateFormat` of `rules.ts`. -/
def validateFormat (content : List Char) : List Violation :=
  let ls := splitOnNl content
  let bulletStyles := (bulletWsGlyphs ls).dedup
  let bulletV :=
    if bulletStyles.length > 1 then
      [⟨"bullet-consistency", "Use consistent bullet point style throughout the template",
        Severity.warning⟩]
    else []
  let sectionHeaders := ls.filterMap headerOfLine
  let inconsistentCase := sectionHeaders.any (fun h => h ≠ upperList h)
  let caseV :=
    if inconsistentCase then
      [⟨"section-case", "Use consistent uppercase for section headers (ROLE:, CONTEXT:, etc.)",
        Severity.warning⟩]
    else []
  let spacingV :=
    if containsSub ('\n' :: '\n' :: '\n' :: []) content then
      [⟨"section-spacing", "Use exactly one blank line between sections", Severity.warning⟩]
    else []
  let trailingV :=
    if ls.any hasTrailingWsTab then
      [⟨"trailing-whitespace", "Remove trailing whitespace", Severity.warning⟩]
    else []
  bulletV ++ caseV ++ spacingV ++ trailingV

structure ZodIssue where
  message : String
deriving DecidableEq, Repr

structure ZodError where
  issues : List ZodIssue
deriving DecidableEq, Repr

/-- `templateSchema.parse({content})` with `z.string().min(1, msg)`. -/
def zodParseTemplate (content : List Char) : Except ZodError Unit :=
  if content.length ≥ 1 then .ok ()
  else .error ⟨[⟨"Template content cannot be empty"⟩]⟩

/-- `validateTemplate` of `rules.ts`.  The access `error.issues[0].message` is
the one JavaScript-partial step (it would raise a `TypeError` if a `ZodError`
carried no issues), so the operation is embedded in `Except String`. -/
def validateTemplate (content : List Char) : Except String ValidationResult :=
  let schemaStep : Except String (List Violation) :=
    match zodParseTemplate content with
    | .ok _ => .ok []
    | .error e =>
      match e.issues with
      | issue :: _ => .ok [⟨"schema", issue.message, Severity.error⟩]
      | [] => .error "TypeError: cannot read properties of undefined"
  match schemaStep with
  | .error msg => .error msg
  | .ok schemaV =>
    let violations := schemaV ++ validateStructure content ++ validateContent content
      ++ validateVariables content ++ validateFormat content
    .ok { isValid := violations.length == 0, violations := violations }

/-! ## The template analyzer (`structure.ts`)

Scores are JavaScript numbers; they are modelled as `ℚ` (all constants in the
source are decimal literals).  The record field named `structure` in the
source is written `«structure»` here. -/

structure TAStructure where
  hasRole : Bool
  hasContext : Bool
  hasTask : Bool
  hasResponseFormat : Bool
deriving DecidableEq, Repr

structure TAQuality where
  clarity : ℚ
  conciseness : ℚ
  consistency : ℚ
deriving DecidableEq, Repr

structure TemplateAnalysis where
  «structure» : TAStructure
  quality : TAQuality
  suggestions : List String
deriving DecidableEq, Repr

structure TemplateMetadata where
  type : Option String
  version : Option String
deriving DecidableEq, Repr

/-- Does the line match `^[A-Z]+:` (a nonempty run of capitals then a colon)? -/
def upperColonLine (l : List Char) : Bool :=
  let run := l.takeWhile isUpperAZ
  run ≠ [] &&
    (match l.drop run.length with
     | ':' :: _ => true
     | _ => false)

/-- `calculateClarity` of `structure.ts`.  Note that `nestedCount` in the
source counts matches of the flat-group pattern `/\([^()]*\)/g`. -/
def calculateClarity (content : List Char) : ℚ :=
  let sentences := splitRuns isSentEnd content
  let avgSentenceLength : ℚ :=
    ((sentences.map (fun s => (s.length : ℚ))).sum) / (sentences.length : ℚ)
  let score1 : ℚ := 1
  let score2 := if qlt 100 avgSentenceLength then score1 - 2/10 else score1
  let score3 := if qlt 150 avgSentenceLength then score2 - 3/10 else score2
  let nestedCount := (scanParenGroups content).length
  let score4 := score3 - (nestedCount : ℚ) * (1/10)
  let hasMarkers := (splitOnNl content).any upperColonLine
  let score5 := if hasMarkers then score4 + 2/10 else score4
  qmax 0 (qmin 1 score5)

/-- `calculateConciseness` of `structure.ts`. -/
def calculateConciseness (content : List Char) : ℚ :=
  let words := splitRuns isWsCh (lowerList content)
  let repetitiveWords := (words.dedup.filter (fun w => words.count w > 3)).length
  let score1 : ℚ := 1 - (repetitiveWords : ℚ) * (1/10)
  let score2 := if content.length > 500 then score1 - 2/10 else score1
  let score3 := if content.length > 1000 then score2 - 3/10 else score2
  qmax 0 (qmin 1 score3)

/-- `calculateConsistency` of `structure.ts`. -/
def calculateConsistency (content : List Char) : ℚ :=
  let presentP := containsWholeWordCS ("is").data content
    || containsWholeWordCS ("are").data content
    || containsWholeWordCS ("am").data content
  let pastP := containsWholeWordCS ("was").data content
    || containsWholeWordCS ("were").data content
  let score1 : ℚ := if presentP && pastP then 1 - 2/10 else 1
  let bulletStyles := ((splitOnNl content).filterMap (fun l =>
    match l with
    | g :: _ => if isBulletGlyph g then some g else none
    | [] => none)).dedup
  let score2 := if bulletStyles.length > 1 then score1 - 2/10 else score1
  qmax 0 (qmin 1 score2)

/-- `analyzeTemplate` of `structure.ts`.  The structure flags use
`content.toLowerCase().includes(label)` — plain substring containment, not
anchored at line starts. -/
def analyzeTemplate (content : List Char) (metadata : Option TemplateMetadata) :
    TemplateAnalysis :=
  let lower := lowerList content
  let st : TAStructure :=
    { hasRole := containsSub ("role:").data lower
      hasContext := containsSub ("context:").data lower
      hasTask := containsSub ("task:").data lower
      hasResponseFormat := containsSub ("format:").data lower
        || containsSub ("output:").data lower }
  let sugg :=
    (if !st.hasRole then ["Add a clear role definition using \"ROLE:\" section"] else []) ++
    (if !st.hasContext then ["Include context information using \"CONTEXT:\" section"] else []) ++
    (if !st.hasTask then ["Specify the task using \"TASK:\" section"] else []) ++
    (if !st.hasResponseFormat then
        ["Define expected response format using \"FORMAT:\" or \"OUTPUT:\" section"]
      else []) ++
    (if (scanDbrace content).length = 0 then
        ["Consider using template variables (e.g., \x7b\x7bvariableName\x7d\x7d) for dynamic content"]
      else []) ++
    (match metadata with
     | some m =>
        if m.type = some "conversation" then
          ["For conversation templates, consider adding turn-taking markers or conversation flow indicators"]
        else []
     | none => [])
  { «structure» := st
    quality :=
      { clarity := calculateClarity content
        conciseness := calculateConciseness content
        consistency := calculateConsistency content }
    suggestions := sugg }

/-! ## The content analyzer (`analyzeContent`, unnamed module `part_000`) -/

structure AnalysisDetails where
  avgWordsPerSentence : ℚ
  complexWordCount : Nat
deriving DecidableEq, Repr

structure AnalysisResult where
  score : ℚ
  issues : List String
  suggestions : List String
  details : AnalysisDetails
deriving DecidableEq, Repr

/-- Maximal runs of word characters in a text. -/
def wordRuns (content : List Char) : List (List Char) :=
  (splitRuns (fun c => !isWordChar c) content).filter (fun w => w ≠ [])

def vagueTerms : List String := ["etc", "and so on", "things", "stuff"]

/-- `analyzeContent` of the unnamed analyzer module.  The `details` map of
the source has exactly the keys `avgWordsPerSentence` and
`complexWordCount`, modelled as a record. -/
def analyzeContent (content : List Char) : AnalysisResult :=
  let lower := lowerList content
  let tone :=
    if containsSub ("you must").data lower || containsSub ("you should").data lower then
      (["Tone is too prescriptive"], ["Consider using more collaborative language"])
    else ([], [])
  let sentences := splitRuns isSentEnd content
  let avgWordsPerSentence : ℚ :=
    ((sentences.map (fun s => ((splitRuns isWsCh (trimWs s)).length : ℚ))).sum)
      / (sentences.length : ℚ)
  let conc :=
    if qlt 25 avgWordsPerSentence then
      (["Sentences are too long"], ["Break down long sentences into smaller, clearer statements"])
    else ([], [])
  let complexWordCount := ((wordRuns content).filter (fun w => w.length ≥ 15)).length
  let clar :=
    if complexWordCount > 0 then
      (["Contains complex or technical jargon"], ["Consider using simpler, more accessible language"])
    else ([], [])
  let vagueFound := vagueTerms.filter (fun t => containsSub t.data lower)
  let issues := tone.1 ++ conc.1 ++ clar.1
    ++ vagueFound.map (fun t => "Contains vague term: \"" ++ t ++ "\"")
  let suggestions := tone.2 ++ conc.2 ++ clar.2
    ++ vagueFound.map (fun _ => "Be more specific and explicit")
  { score := qmax 0 (100 - (issues.length : ℚ) * 10)
    issues := issues
    suggestions := suggestions
    details :=
      { avgWordsPerSentence := avgWordsPerSentence
        complexWordCount := complexWordCount } }

/-! ## The template enhancer (`enhanceTemplate`, unnamed module `part_001`) -/

structure Sections where
  role : Bool
  context : Bool
  task : Bool
  format : Bool
deriving DecidableEq, Repr

/-- `identifySections`: line-anchored case-insensitive label detection. -/
def identifySections (content : List Char) : Sections :=
  { role := testLineStartCI ("ROLE:").data content
    context := testLineStartCI ("CONTEXT:").data content
    task := testLineStartCI ("TASK:").data content
    format := testLineStartCI ("FORMAT:").data content
      || testLineStartCI ("OUTPUT:").data content }

/-- `inferRole`: keyword sniffing over the lowercased text. -/
def inferRole (content : List Char) : List Char :=
  let text := lowerList content
  if containsSub ("review").data text || containsSub ("analyze").data text then
    ("reviewing and analyzing content").data
  else if containsSub ("create").data text || containsSub ("generate").data text then
    ("creating and generating content").data
  else if containsSub ("improve").data text || containsSub ("enhance").data text then
    ("improving and enhancing content").data
  else if containsSub ("explain").data text || containsSub ("teach").data text then
    ("explaining concepts and teaching").data
  else ("assisting with the specified task").data

/-- Split at the first `'\n'`: the part before it and the part after it. -/
def splitFirstNl : List Char → Option (List Char × List Char)
  | [] => none
  | '\n' :: cs => some ([], cs)
  | c :: cs => (splitFirstNl cs).map (fun lr => (c :: lr.1, lr.2))

/-- Scanning core of `insertAfterSection(content, 'ROLE:', insertion)`:
the regex `(^ROLE:.*?\n)/m` matched at the first line-start occurrence of
`ROLE:` that is followed by a `'\n'`; the replacement is
`$1\n` followed by the insertion. -/
def insertAfterRoleGo (insertion : List Char) (atLineStart : Bool) :
    List Char → Option (List Char)
  | [] => none
  | c :: cs =>
    if atLineStart && startsWithList ("ROLE:").data (c :: cs) then
      match splitFirstNl (c :: cs) with
      | some lr => some (lr.1 ++ '\n' :: '\n' :: (insertion ++ lr.2))
      | none => none
    else (insertAfterRoleGo insertion (c = '\n') cs).map (fun r => c :: r)

/-- `insertAfterSection` with section `'ROLE:'` (the only call site);
returns the content unchanged when the pattern does not match. -/
def insertAfterSection (content insertion : List Char) : List Char :=
  (insertAfterRoleGo insertion true content).getD content

def joinSp (ls : List (List Char)) : List Char :=
  joinSep ' ' ls

/-- `addMissingSections`.  In the all-missing branch the source reads
`lines[0]`; `lines` comes from `split('\n')` and so is never empty, but the
access is modelled as the one fallible step of the function. -/
def addMissingSections (content : List Char) (sections : Sections) :
    Except String (List Char × List String) :=
  if !sections.role && !sections.context && !sections.task && !sections.format then
    match splitOnNl (trimWs content) with
    | [] => .error "TypeError: cannot read properties of undefined"
    | l0 :: restLines =>
      let lines := l0 :: restLines
      .ok (("ROLE: You are an AI assistant tasked with ").data ++ inferRole l0
          ++ ("\n\nCONTEXT: ").data ++ joinSp (lines.take 3)
          ++ ("\n\nTASK: ").data ++ joinSp (lines.drop 3)
          ++ ("\n\nFORMAT: Provide your response in a clear, structured manner.").data,
        ["Added basic template structure (ROLE, CONTEXT, TASK, FORMAT sections)"])
  else
    let e1c1 :=
      if !sections.role then
        (("ROLE: You are an AI assistant tasked with ").data ++ inferRole content
            ++ ("\n\n").data ++ content,
         ["Added missing ROLE section"])
      else (content, [])
    let e2c2 :=
      if !sections.context then
        (insertAfterSection e1c1.1
            ("CONTEXT: Working with the following information and requirements.\n\n").data,
         ["Added missing CONTEXT section"])
      else (e1c1.1, [])
    let e3c3 :=
      if !sections.task then
        (trimWs e2c2.1 ++ ("\n\nTASK: Complete the following objectives.\n").data,
         ["Added missing TASK section"])
      else (e2c2.1, [])
    let e4c4 :=
      if !sections.format then
        (trimWs e3c3.1 ++ ("\n\nFORMAT: Provide your response in a clear, structured manner.\n").data,
         ["Added missing FORMAT section"])
      else (e3c3.1, [])
    .ok (e4c4.1, e1c1.2 ++ e2c2.2 ++ e3c3.2 ++ e4c4.2)

/-- `replace(/\s+/g, '_')`: each maximal whitespace run becomes one
underscore. -/
def replaceWsRunsGo (inWs : Bool) : List Char → List Char
  | [] => []
  | c :: cs =>
    if isWsCh c then
      if inWs then replaceWsRunsGo true cs else '_' :: replaceWsRunsGo true cs
    else c :: replaceWsRunsGo false cs

/-- The `cleanName` computation of `formatTemplateVariables`:
strip `[{}\[\]$]`, trim, collapse whitespace runs to underscores. -/
def cleanVarName (v : List Char) : List Char :=
  replaceWsRunsGo false (trimWs (v.filter (fun c => !isVarPunct c)))

/-- Insertion-ordered map update (`Map.prototype.set`). -/
def assocUpsert (m : List (List Char × List Char)) (k v : List Char) :
    List (List Char × List Char) :=
  match m with
  | [] => [(k, v)]
  | (k', v') :: rest => if k' = k then (k', v) :: rest else (k', v') :: assocUpsert rest k v

/-- `String.prototype.replace` with a plain-string pattern: first occurrence
only. -/
def replaceFirstGo (pat repl : List Char) : List Char → List Char
  | [] => []
  | c :: cs =>
    if startsWithList pat (c :: cs) then repl ++ (c :: cs).drop pat.length
    else c :: replaceFirstGo pat repl cs

def replaceFirst (pat repl s : List Char) : List Char :=
  if pat = [] then repl ++ s else replaceFirstGo pat repl s

def normalizedEntryText (e : List Char × List Char) : String :=
  String.mk e.1 ++ " → " ++ String.mk e.2

def joinCommaSp : List String → String
  | [] => ""
  | [x] => x
  | x :: y :: rest => x ++ ", " ++ joinCommaSp (y :: rest)

/-- The body of the `forEach` of `formatTemplateVariables`: normalize one
variable token, replacing its first occurrence when it changes. -/
def ftvStep (acc : List Char × List (List Char × List Char)) (v : List Char) :
    List Char × List (List Char × List Char) :=
  let cleanName := cleanVarName v
  let normalizedVar := '\x7b' :: '\x7b' :: (cleanName ++ ['\x7d', '\x7d'])
  if v ≠ normalizedVar then
    (replaceFirst v normalizedVar acc.1, assocUpsert acc.2 v normalizedVar)
  else acc

/-- `formatTemplateVariables` of the enhancer module. -/
def formatTemplateVariables (content : List Char) : List Char × List String :=
  let vars := scanCombinedVars content
  if vars.length = 0 then (content, [])
  else
    let en := vars.foldl ftvStep (content, ([] : List (List Char × List Char)))
    if en.2.length > 0 then
      (en.1, ["Normalized variable format to \x7b\x7bvariableName\x7d\x7d style: "
          ++ joinCommaSp (en.2.map normalizedEntryText)])
    else (en.1, [])

/-- One line of `replace(/^(role|context|task|format|output):/gim, m => m.toUpperCase())`. -/
def upLine (l : List Char) : List Char :=
  match labelColonLenCI l with
  | some n => upperList (l.take n) ++ l.drop n
  | none => l

def upLabels (content : List Char) : List Char :=
  joinNl ((splitOnNl content).map upLine)

/-- Case-sensitive match of `(ROLE|CONTEXT|TASK|FORMAT|OUTPUT):` at the head
of the text, returning the matched text and the rest. -/
def labelColonAtUpper (s : List Char) : Option (List Char × List Char) :=
  if startsWithList ("ROLE:").data s then some (("ROLE:").data, s.drop 5)
  else if startsWithList ("CONTEXT:").data s then some (("CONTEXT:").data, s.drop 8)
  else if startsWithList ("TASK:").data s then some (("TASK:").data, s.drop 5)
  else if startsWithList ("FORMAT:").data s then some (("FORMAT:").data, s.drop 7)
  else if startsWithList ("OUTPUT:").data s then some (("OUTPUT:").data, s.drop 7)
  else none

theorem labelColonAtUpper_length_le (s lab rest : List Char)
    (h : labelColonAtUpper s = some (lab, rest)) : rest.length ≤ s.length := by
  unfold labelColonAtUpper at h
  split at h <;>
    first
      | (cases h; simp [List.length_drop])
      | (split at h <;>
          first
            | (cases h; simp [List.length_drop])
            | (split at h <;>
                first
                  | (cases h; simp [List.length_drop])
                  | (split at h <;>
                      first
                        | (cases h; simp [List.length_drop])
                        | (split at h
                           · cases h; simp [List.length_drop]
                           · exact absurd h (by simp)))))

/-- Fuel-driven scanning core of
`replace(/([^\n])\n(ROLE|CONTEXT|TASK|FORMAT|OUTPUT):/g, '$1\n\n$2:')`:
insert a blank line before an uppercase section label that directly follows a
nonempty line; scanning resumes after the matched `LABEL:`.  A fuel equal to
the input length suffices since every recursive call consumes at least one
character. -/
def enforceSpacingFuel : Nat → List Char → List Char
  | 0, s => s
  | fuel + 1, c :: c2 :: cs =>
    if c2 = '\n' then
      if c = '\n' then c :: enforceSpacingFuel fuel (c2 :: cs)
      else
        match labelColonAtUpper cs with
        | some lr => c :: c2 :: '\n' :: (lr.1 ++ enforceSpacingFuel fuel lr.2)
        | none => c :: enforceSpacingFuel fuel (c2 :: cs)
    else c :: enforceSpacingFuel fuel (c2 :: cs)
  | _ + 1, s => s

def enforceSpacing (s : List Char) : List Char :=
  enforceSpacingFuel s.length s

/-- Is there a match of `([^\n])\n(ROLE|CONTEXT|TASK|FORMAT|OUTPUT):`
anywhere in the text (fuel mirrors `enforceSpacingFuel`)? -/
def hasUnspacedLabelFuel : Nat → List Char → Bool
  | 0, _ => false
  | fuel + 1, c :: c2 :: cs =>
    if c2 = '\n' then
      (decide (c ≠ '\n') && (labelColonAtUpper cs).isSome)
        || hasUnspacedLabelFuel fuel (c2 :: cs)
    else hasUnspacedLabelFuel fuel (c2 :: cs)
  | _ + 1, _ => false

def hasUnspacedLabel (s : List Char) : Bool :=
  hasUnspacedLabelFuel s.length s

/-- Scanning core of `replace(/^[-*•]\s*/gm, '- ')`.  In state
`eating = true` the `\s*` of a started match is being consumed and `flag`
records whether the last consumed whitespace character was a newline (which
re-establishes a line start); in state `eating = false`, `flag` records
whether the current position is at a line start. -/
def rbGo (eating flag : Bool) : List Char → List Char
  | [] => []
  | c :: cs =>
    if eating then
      if isWsCh c then rbGo true (c = '\n') cs
      else if flag && isBulletGlyph c then '-' :: ' ' :: rbGo true false cs
      else c :: rbGo false false cs
    else
      if flag && isBulletGlyph c then '-' :: ' ' :: rbGo true false cs
      else c :: rbGo false (c = '\n') cs

def replaceBullets (content : List Char) : List Char :=
  rbGo false true content

/-- `replace(/[ \t]+$/gm, '')` over the whole text. -/
def stripTrailingWs (content : List Char) : List Char :=
  joinNl ((splitOnNl content).map stripLineEndWs)

/-- `^[-*•]/m` restricted to one line: does the line start with a bullet
glyph? -/
def lineStartsBullet (l : List Char) : Bool :=
  match l with
  | g :: _ => isBulletGlyph g
  | [] => false

/-- `improveFormatting` of the enhancer module. -/
def improveFormatting (content : List Char) : List Char × List String :=
  let e1 := upLabels content
  let e2 := enforceSpacing e1
  let hasBullets := (splitOnNl e2).any lineStartsBullet
  let e3bc :=
    if hasBullets then (replaceBullets e2, ["Standardized bullet point format to \"-\""])
    else (e2, [])
  let trimmed := stripTrailingWs e3bc.1
  let e4tc :=
    if trimmed ≠ e3bc.1 then (trimmed, ["Removed trailing whitespace"])
    else (e3bc.1, [])
  (e4tc.1, e3bc.2 ++ e4tc.2)

/-- The `filter` loop of `removeRedundancies`: `seen` is the set of already
kept normalized lines, `dups` the set of normalized duplicates (in encounter
order), `acc` the kept lines reversed. -/
def rrGo (seen dups acc : List (List Char)) :
    List (List Char) → List (List Char) × List (List Char)
  | [] => (acc.reverse, dups)
  | l :: rest =>
    let n := lowerList (trimWs l)
    if n.isEmpty || (labelColonLenCI n).isSome then rrGo seen dups (l :: acc) rest
    else if seen.contains n then
      rrGo seen (if dups.contains n then dups else dups ++ [n]) acc rest
    else rrGo (seen ++ [n]) dups (l :: acc) rest

/-- `removeRedundancies` of the enhancer module. -/
def removeRedundancies (content : List Char) : List Char × List String :=
  let ls := splitOnNl content
  let fd := rrGo [] [] [] ls
  if fd.2.length > 0 then
    (joinNl fd.1, ["Removed " ++ toString fd.2.length ++ " duplicate instruction(s)"])
  else (content, [])

structure EnhancementResult where
  enhancedContent : List Char
  changes : List String
  originalContent : List Char
deriving DecidableEq, Repr

/-- The passes of `enhanceTemplate` after `addMissingSections` (whose result
is `e1c1`), with the shared change log as concatenation in pass order. -/
def enhancePasses (content : List Char) (e1c1 : List Char × List String) :
    EnhancementResult :=
  let e2c2 := formatTemplateVariables e1c1.1
  let e3c3 := improveFormatting e2c2.1
  let e4c4 := removeRedundancies e3c3.1
  { enhancedContent := e4c4.1
    changes := e1c1.2 ++ e2c2.2 ++ e3c3.2 ++ e4c4.2
    originalContent := content }

/-- `enhanceTemplate` of the enhancer module: the four passes in order. -/
def enhanceTemplate (content : List Char) : Except String EnhancementResult :=
  match addMissingSections content (identifySections content) with
  | .error e => .error e
  | .ok e1c1 => .ok (enhancePasses content e1c1)

/-- The ordered list of section labels found at line starts
(the `foundSections` computation of `validateStructure`). -/
def foundSectionLabels (content : List Char) : List String :=
  (splitOnNl content).filterMap foundLabelOfLine

/-! ## Derived definitions used by the verification -/

/-- The schema violations produced by the `try/catch` around
`templateSchema.parse` (used to state `validateTemplate` in closed form). -/
def schemaViolations (content : List Char) : List Violation :=
  if content.length ≥ 1 then []
  else [⟨"schema", "Template content cannot be empty", Severity.error⟩]

/-- All violations accumulated by `validateTemplate`, in push order. -/
def fullViolations (content : List Char) : List Violation :=
  schemaViolations content ++ validateStructure content ++ validateContent content
    ++ validateVariables content ++ validateFormat content

/-- An `ambiguous-language` violation whose message mentions `might`. -/
def isMightViolation (v : Violation) : Bool :=
  v.rule == "ambiguous-language" && containsSub (("might").data) v.message.data

/-- Concrete inputs used by individual claims.  `\x7b`/`\x7d` are `{`/`}`. -/
def c2Input : List Char := ("\x7b\x7ba\x7d\x7d and [b]").data

def c4Input : List Char := ("Hi (a) (b) (c).").data

def c7Input : List Char := ("Please summarize this document.").data

def c3Input : List Char := ("my role: helper").data

def c10Input : List Char := ("ROLE: a\n\nCONTEXT: b\n\nTASK: c\n\nFORMAT: d").data

def c10Result : EnhancementResult := ⟨c10Input, [], c10Input⟩

def c1WitnessResult : ValidationResult :=
  ⟨false,
   [⟨"required-sections", "Missing ROLE section", Severity.error⟩,
    ⟨"required-sections", "Missing CONTEXT section", Severity.error⟩,
    ⟨"required-sections", "Missing TASK section", Severity.error⟩,
    ⟨"required-sections", "Missing FORMAT/OUTPUT section", Severity.warning⟩]⟩

/-! ## Shared lemmas -/

theorem splitOnChar_ne_nil (sep : Char) (s : List Char) : splitOnChar sep s ≠ [] := by
  cases s with
  | nil => simp [splitOnChar]
  | cons c cs =>
    unfold splitOnChar
    split
    · simp
    · split <;> simp

theorem splitOnNl_ne_nil (s : List Char) : splitOnNl s ≠ [] :=
  splitOnChar_ne_nil '\n' s

theorem validateTemplate_eq (s : List Char) :
    validateTemplate s = .ok ⟨(fullViolations s).length == 0, fullViolations s⟩ := by
  by_cases hc : s.length ≥ 1 <;>
    simp [validateTemplate, zodParseTemplate, fullViolations, schemaViolations, hc]

theorem addMissingSections_ok (c : List Char) (sec : Sections) :
    ∃ p, addMissingSections c sec = .ok p := by
  unfold addMissingSections
  split
  · split
    case h_1 heq => exact absurd heq (splitOnNl_ne_nil _)
    case h_2 => exact ⟨_, rfl⟩
  · exact ⟨_, rfl⟩

/-! ## Claim theorems -/

/-- C1: for every string input, the result of `validate` satisfies
`isValid === (violations.length === 0)`: the pass/fail verdict is true
exactly when the accumulated violation list is empty. -/
theorem claim_C1_isValid_iff_no_violations (s : List Char) (r : ValidationResult)
    (h : validateTemplate s = .ok r) : r.isValid = (r.violations.length == 0) := by
  rw [validateTemplate_eq] at h
  cases h
  rfl

set_option maxHeartbeats 2000000 in
theorem claim_C1_witness :
    c1WitnessResult.isValid = (c1WitnessResult.violations.length == 0) :=
  claim_C1_isValid_iff_no_violations (("x").data) c1WitnessResult (by decide)

/-- C5: the two operations with a JavaScript-partial step, `validate` and
`enhance`, are total: they return an `.ok` value for every input, including
the empty string (the analyzers `analyzeTemplate`/`analyzeContent` are total
functions of the embedding by construction).  In particular the enhancer
never raises. -/
theorem claim_C5_operations_total (s : List Char) :
    (validateTemplate s).isOk = true ∧ (enhanceTemplate s).isOk = true := by
  constructor
  · rw [validateTemplate_eq]; rfl
  · unfold enhanceTemplate
    obtain ⟨p, hp⟩ := addMissingSections_ok s (identifySections s)
    rw [hp]
    rfl

/-- C10: for every input, `enhance` succeeds and its `originalContent` field
is exactly the input string, unchanged. -/
theorem claim_C10_original_preserved (s : List Char) (r : EnhancementResult)
    (h : enhanceTemplate s = .ok r) : r.originalContent = s := by
  unfold enhanceTemplate at h
  split at h
  case h_1 => exact Except.noConfusion h
  case h_2 p heq =>
    have h2 : enhancePasses s p = r := Except.ok.inj h
    rw [← h2]
    rfl

set_option maxHeartbeats 4000000 in
theorem claim_C10_witness : c10Result.originalContent = c10Input :=
  claim_C10_original_preserved c10Input c10Result (by decide)

/-- C2 (the claim fails on the code): for the input `{{a}} and [b]`,
`validate` emits NO `variable-format` violation at all, because the bracket
pattern in the source is the malformed `/[[]\w-]+]/` (it requires a hyphen
and two closing brackets, e.g. `[a-]]`), so `[b]` is not counted as a
variable syntax.  The second conjunct exhibits the failure of the bracket
pattern on `[b]` directly. -/
theorem claim_C2_no_variable_format_error :
    Except.map
        (fun r => (r.violations.filter (fun v => v.rule == "variable-format")).length)
        (validateTemplate c2Input) = .ok 0
      ∧ scanBracketBroken (("[b]").data) = [] := by
  constructor
  · set_option maxHeartbeats 2000000 in decide
  · decide

/-- C4 (the claim fails on the code): `calculateClarity` subtracts 0.1 per
FLAT parenthesized group (`/\([^()]*\)/g`), despite the source comment
"Penalize for nested instructions"; an input with three flat groups, short
sentences and no markers scores 0.7, not the claimed 1.0.  The second
conjunct shows the input has no nested parenthesized group. -/
theorem claim_C4_flat_groups_penalized :
    calculateClarity c4Input = 7 / 10 ∧ existsNested c4Input = false := by
  constructor
  · with_unfolding_all decide
  · decide

/-- C9 (counterexample to the claim as stated): `analyzeContent` on the empty
string reports NO issue at all — the empty content is not surfaced as a
violation/issue by the analyzer; it returns normally with score 100. -/
theorem claim_C9_counterexample :
    (analyzeContent (("").data)).issues = [] ∧ (analyzeContent (("").data)).score = 100 := by
  constructor
  · with_unfolding_all decide
  · with_unfolding_all decide

/-- C9 (amended): for the empty-string input, `validate` succeeds and reports
the emptiness as a single `schema` violation with error severity, making
`isValid` false; `analyze` does not throw: it returns normally, but with an
empty issue list and score 100 — emptiness is not reported as an issue. -/
theorem claim_C9_empty_input_behaviour :
    Except.map
        (fun r => (r.isValid, r.violations.filter (fun v => v.rule == "schema")))
        (validateTemplate (("").data))
      = .ok (false, [⟨"schema", "Template content cannot be empty", Severity.error⟩])
    ∧ (analyzeContent (("").data)).issues = []
    ∧ (analyzeContent (("").data)).score = 100 := by
  refine ⟨?_, ?_, ?_⟩
  · decide
  · with_unfolding_all decide
  · with_unfolding_all decide

/-- C7: for the input "Please summarize this document." (no labeled
sections), `enhance` produces a document whose line-start section labels are
exactly ROLE, CONTEXT, TASK, FORMAT in that order, and whose change list
contains the entry "Added basic template structure (ROLE, CONTEXT, TASK,
FORMAT sections)". -/
theorem claim_C7_missing_sections_scenario :
    Except.map
        (fun r => (foundSectionLabels r.enhancedContent,
          r.changes.contains
            "Added basic template structure (ROLE, CONTEXT, TASK, FORMAT sections)"))
        (enhanceTemplate c7Input)
      = .ok (["ROLE", "CONTEXT", "TASK", "FORMAT"], true) := by
  set_option maxHeartbeats 4000000 in
  set_option maxRecDepth 4096 in
  decide

theorem startsWithList_iff (p : List Char) : ∀ s : List Char,
    startsWithList p s = true ↔ ∃ t, s = p ++ t := by
  induction p with
  | nil => intro s; simp [startsWithList]
  | cons a ps ih =>
    intro s
    cases s with
    | nil =>
      simp [startsWithList]
    | cons c cs =>
      simp only [startsWithList, Bool.and_eq_true, decide_eq_true_eq, ih,
        List.cons_append, List.cons.injEq]
      constructor
      · rintro ⟨hac, t, ht⟩
        exact ⟨t, hac.symm, ht⟩
      · rintro ⟨t, hca, ht⟩
        exact ⟨hca.symm, t, ht⟩

theorem containsSub_iff (p : List Char) : ∀ s : List Char,
    containsSub p s = true ↔ ∃ pre post, s = pre ++ p ++ post := by
  intro s
  induction s with
  | nil =>
    simp only [containsSub, startsWithList_iff]
    constructor
    · rintro ⟨t, ht⟩
      exact ⟨[], t, by simpa using ht⟩
    · rintro ⟨pre, post, h⟩
      have h1 := List.append_eq_nil.mp h.symm
      have h2 := List.append_eq_nil.mp h1.1
      exact ⟨[], by simp [h2.2]⟩
  | cons c cs ih =>
    simp only [containsSub, Bool.or_eq_true, startsWithList_iff, ih]
    constructor
    · rintro (⟨t, ht⟩ | ⟨pre, post, h⟩)
      · exact ⟨[], t, by simpa using ht⟩
      · exact ⟨c :: pre, post, by simp [h]⟩
    · rintro ⟨pre, post, h⟩
      cases pre with
      | nil => exact Or.inl ⟨post, by simpa using h⟩
      | cons c' pre' =>
        simp only [List.cons_append, List.cons.injEq] at h
        exact Or.inr ⟨pre', post, h.2⟩

/-- C3 (counterexample to the claim as stated): for the input
"my role: helper" the label-with-colon occurs only in the middle of a line,
so the claim says `hasRole` must be false; but `analyzeTemplate` reports
`hasRole = true`, because it uses plain substring containment
(`content.toLowerCase().includes('role:')`), not a line-start-anchored
match (the second conjunct shows no line of the input starts with the
label). -/
theorem claim_C3_counterexample :
    (analyzeTemplate c3Input none).«structure».hasRole = true
      ∧ testLineStartCI (("role:").data) c3Input = false := by
  constructor
  · decide
  · decide

/-- C3 (amended): the structure flags reported by `analyzeTemplate` are true
exactly when the lowercased content contains the label followed by a colon
as a substring ANYWHERE (not necessarily at a line start);
`hasResponseFormat` holds when it contains "format:" or "output:". -/
theorem claim_C3_flags_are_substring_tests (s : List Char) :
    ((analyzeTemplate s none).«structure».hasRole = true
        ↔ ∃ pre post, lowerList s = pre ++ ("role:").data ++ post)
    ∧ ((analyzeTemplate s none).«structure».hasContext = true
        ↔ ∃ pre post, lowerList s = pre ++ ("context:").data ++ post)
    ∧ ((analyzeTemplate s none).«structure».hasTask = true
        ↔ ∃ pre post, lowerList s = pre ++ ("task:").data ++ post)
    ∧ ((analyzeTemplate s none).«structure».hasResponseFormat = true
        ↔ ((∃ pre post, lowerList s = pre ++ ("format:").data ++ post)
            ∨ (∃ pre post, lowerList s = pre ++ ("output:").data ++ post))) := by
  refine ⟨?_, ?_, ?_, ?_⟩ <;>
    simp [analyzeTemplate, containsSub_iff, Bool.or_eq_true]

/-! ## C8: the ambiguous-language check -/

/-- The violation emitted for the term `might`. -/
def mightViol : Violation :=
  ⟨"ambiguous-language", "Avoid ambiguous terms like \"might\"", Severity.warning⟩

theorem isMight_false_of_rule (v : Violation)
    (h : (v.rule == "ambiguous-language") = false) : isMightViolation v = false := by
  simp [isMightViolation, h]

theorem isMight_false_of_mem_ite (c : Prop) [Decidable c] (w v : Violation)
    (hv : v ∈ (if c then [w] else []))
    (hw : isMightViolation w = false) : isMightViolation v = false := by
  split at hv
  · simp only [List.mem_singleton] at hv
    subst hv
    exact hw
  · simp at hv

theorem filter_might_nil_of_rules (L : List Violation)
    (h : ∀ v ∈ L, isMightViolation v = false) :
    L.filter isMightViolation = [] := by
  induction L with
  | nil => rfl
  | cons v vs ih =>
    have hv := h v (List.mem_cons_self v vs)
    simp only [List.filter_cons, hv, Bool.false_eq_true, if_false]
    exact ih (fun w hw => h w (List.mem_cons_of_mem v hw))

theorem mem_foldr_ite_append {α : Type} (f : α → List Violation) (L : List α)
    (v : Violation) (h : v ∈ L.foldr (fun a acc => f a ++ acc) []) :
    ∃ a, a ∈ L ∧ v ∈ f a := by
  induction L with
  | nil => simp at h
  | cons a as ih =>
    simp only [List.foldr_cons, List.mem_append] at h
    rcases h with h | h
    · exact ⟨a, by simp, h⟩
    · obtain ⟨b, hb, hv⟩ := ih h
      exact ⟨b, by simp [hb], hv⟩

theorem filter_might_ite (c : Bool) (v : Violation) :
    (if c then [v] else []).filter isMightViolation
      = if c && isMightViolation v then [v] else [] := by
  cases c <;> cases hv : isMightViolation v <;> simp [List.filter, hv]

theorem orderViolationsGo_rules (found : List String) : ∀ li v,
    v ∈ orderViolationsGo li found → v.rule = "section-order" := by
  induction found with
  | nil => intro li v h; simp [orderViolationsGo] at h
  | cons sec rest ih =>
    intro li v h
    simp only [orderViolationsGo, List.mem_append] at h
    rcases h with h | h
    · split at h
      · simp only [List.mem_singleton] at h
        subst h
        rfl
      · simp at h
    · exact ih _ v h

theorem schemaViolations_filter_might (s : List Char) :
    (schemaViolations s).filter isMightViolation = [] := by
  unfold schemaViolations
  split
  · rfl
  · decide

theorem validateStructure_filter_might (s : List Char) :
    (validateStructure s).filter isMightViolation = [] := by
  apply filter_might_nil_of_rules
  intro v hv
  simp only [validateStructure, List.mem_append] at hv
  rcases hv with (((hv | hv) | hv) | hv) | hv
  · exact isMight_false_of_mem_ite _ _ _ hv (by decide)
  · exact isMight_false_of_mem_ite _ _ _ hv (by decide)
  · exact isMight_false_of_mem_ite _ _ _ hv (by decide)
  · exact isMight_false_of_mem_ite _ _ _ hv (by decide)
  · apply isMight_false_of_rule
    rw [orderViolationsGo_rules _ _ _ hv]
    decide

theorem validateVariables_filter_might (s : List Char) :
    (validateVariables s).filter isMightViolation = [] := by
  apply filter_might_nil_of_rules
  intro v hv
  simp only [validateVariables, List.mem_append] at hv
  rcases hv with (hv | hv) | hv
  · exact isMight_false_of_mem_ite _ _ _ hv (by decide)
  · obtain ⟨a, _, hva⟩ := mem_foldr_ite_append _ _ _ hv
    split at hva
    · simp at hva
    · simp only [List.mem_singleton] at hva
      subst hva
      apply isMight_false_of_rule
      rfl
  · exact isMight_false_of_mem_ite _ _ _ hv (by decide)

theorem validateFormat_filter_might (s : List Char) :
    (validateFormat s).filter isMightViolation = [] := by
  apply filter_might_nil_of_rules
  intro v hv
  simp only [validateFormat, List.mem_append] at hv
  rcases hv with ((hv | hv) | hv) | hv
  · exact isMight_false_of_mem_ite _ _ _ hv (by decide)
  · exact isMight_false_of_mem_ite _ _ _ hv (by decide)
  · exact isMight_false_of_mem_ite _ _ _ hv (by decide)
  · exact isMight_false_of_mem_ite _ _ _ hv (by decide)

theorem validateContent_filter_might (s : List Char) :
    (validateContent s).filter isMightViolation
      = if containsWholeWordCI (("might").data) s then [mightViol] else [] := by
  unfold validateContent
  simp only [List.filter_append]
  have h1 : List.filter isMightViolation ((splitRuns isSentEnd s).foldr (fun s' acc =>
      (if (trimWs s').length > 150 then
        [⟨"sentence-length", "Sentence exceeds recommended length of 150 characters",
          Severity.warning⟩] else []) ++ acc) []) = [] := by
    apply filter_might_nil_of_rules
    intro v hv
    obtain ⟨a, _, hva⟩ := mem_foldr_ite_append _ _ _ hv
    exact isMight_false_of_mem_ite _ _ _ hva (by decide)
  have h2 : List.filter isMightViolation (if existsNested s then
        [⟨"nested-instructions", "Avoid nested parentheses in instructions",
          Severity.warning⟩] else []) = [] := by
    apply filter_might_nil_of_rules
    intro v hv
    exact isMight_false_of_mem_ite _ _ _ hv (by decide)
  rw [h1, h2]
  have e1 : isMightViolation ⟨"ambiguous-language",
      "Avoid ambiguous terms like \"" ++ "maybe" ++ "\"", Severity.warning⟩ = false := by
    decide
  have e2 : isMightViolation ⟨"ambiguous-language",
      "Avoid ambiguous terms like \"" ++ "probably" ++ "\"", Severity.warning⟩ = false := by
    decide
  have e3 : isMightViolation ⟨"ambiguous-language",
      "Avoid ambiguous terms like \"" ++ "possibly" ++ "\"", Severity.warning⟩ = false := by
    decide
  have e4 : isMightViolation ⟨"ambiguous-language",
      "Avoid ambiguous terms like \"" ++ "might" ++ "\"", Severity.warning⟩ = true := by
    decide
  have e5 : isMightViolation ⟨"ambiguous-language",
      "Avoid ambiguous terms like \"" ++ "could" ++ "\"", Severity.warning⟩ = false := by
    decide
  have e6 : isMightViolation ⟨"ambiguous-language",
      "Avoid ambiguous terms like \"" ++ "should" ++ "\"", Severity.warning⟩ = false := by
    decide
  have e7 : isMightViolation ⟨"ambiguous-language",
      "Avoid ambiguous terms like \"" ++ "would" ++ "\"", Severity.warning⟩ = false := by
    decide
  have emsg : ("Avoid ambiguous terms like \"" ++ "might" ++ "\"") =
      "Avoid ambiguous terms like \"might\"" := by decide
  simp only [ambiguousTerms, List.foldr_cons, List.foldr_nil, List.append_nil,
    List.filter_append, filter_might_ite, e1, e2, e3, e4, e5, e6, e7,
    Bool.and_false, Bool.and_true, Bool.false_eq_true, if_false,
    List.nil_append, List.append_nil, emsg]
  have e4' : isMightViolation ⟨"ambiguous-language",
      "Avoid ambiguous terms like \"might\"", Severity.warning⟩ = true := by decide
  simp only [e4', Bool.and_true, mightViol]

/-- All violations of `validateTemplate` whose rule is `ambiguous-language`
and whose message mentions `might`: exactly one (the fixed warning for the
term `might`) when the input contains `might` as a whole word, and none
otherwise. -/
theorem fullViolations_filter_might (s : List Char) :
    (fullViolations s).filter isMightViolation
      = if containsWholeWordCI (("might").data) s then [mightViol] else [] := by
  unfold fullViolations
  simp only [List.filter_append, schemaViolations_filter_might,
    validateStructure_filter_might, validateContent_filter_might,
    validateVariables_filter_might, validateFormat_filter_might]
  cases h : containsWholeWordCI (("might").data) s <;> simp

/-- C8: ambiguous-term detection is whole-word matched and case-insensitive:
`validate` yields exactly one `ambiguous-language` violation whose message
mentions "might" — the fixed warning for that term — when and only when the
input contains `might` as a whole word (so an input containing only
"mighty" yields none); at most one such warning is emitted regardless of how
often the term occurs. -/
theorem claim_C8_might_whole_word (s : List Char) :
    Except.map (fun r => r.violations.filter isMightViolation)
        (validateTemplate s)
      = .ok (if containsWholeWordCI (("might").data) s then [mightViol] else []) := by
  rw [validateTemplate_eq]
  simp only [Except.map]
  rw [fullViolations_filter_might]

/-! ## C6: idempotence of `enhanceTemplate` on normalized templates -/

theorem joinSep_cons_cons (sep : Char) (c : Char) (r : List Char)
    (rs : List (List Char)) :
    joinSep sep ((c :: r) :: rs) = c :: joinSep sep (r :: rs) := by
  cases rs <;> rfl

theorem joinSep_splitOnChar (sep : Char) : ∀ s : List Char,
    joinSep sep (splitOnChar sep s) = s := by
  intro s
  induction s with
  | nil => rfl
  | cons c cs ih =>
    cases hs : splitOnChar sep cs with
    | nil => exact absurd hs (splitOnChar_ne_nil sep cs)
    | cons r rs =>
      have hexp : splitOnChar sep (c :: cs)
          = if c = sep then [] :: r :: rs else (c :: r) :: rs := by
        simp only [splitOnChar, hs]
      rw [hexp]
      rw [hs] at ih
      by_cases hc : c = sep
      · subst hc
        simp only [if_pos rfl, joinSep, List.nil_append]
        rw [ih]
      · rw [if_neg hc, joinSep_cons_cons, ih]

theorem joinNl_splitOnNl (s : List Char) : joinNl (splitOnNl s) = s :=
  joinSep_splitOnChar '\n' s

theorem map_id_of_mem {α : Type} (f : α → α) : ∀ l : List α,
    (∀ a ∈ l, f a = a) → l.map f = l := by
  intro l
  induction l with
  | nil => intro; rfl
  | cons a as ih =>
    intro h
    simp only [List.map_cons, h a (List.mem_cons_self a as)]
    rw [ih (fun b hb => h b (List.mem_cons_of_mem a hb))]

theorem any_eq_false_of_all_neg {α : Type} (p : α → Bool) : ∀ L : List α,
    L.all (fun x => !p x) = true → L.any p = false := by
  intro L
  induction L with
  | nil => intro; rfl
  | cons a as ih =>
    intro h
    simp only [List.all_cons, Bool.and_eq_true, Bool.not_eq_true'] at h
    simp only [List.any_cons, h.1, Bool.false_or]
    exact ih h.2

/-- Pass 1 is the identity when all four sections are present. -/
theorem addMissingSections_id (s : List Char) :
    addMissingSections s ⟨true, true, true, true⟩ = .ok (s, []) := by
  simp [addMissingSections]

/-- Character-class facts used by the variable-normalization argument. -/
theorem wordHyphen_not_punct (x : Char) (h : isWordHyphen x = true) :
    isVarPunct x = false := by
  cases hp : isVarPunct x
  · rfl
  · exfalso
    simp only [isVarPunct, Bool.or_eq_true, decide_eq_true_eq] at hp
    rcases hp with (((h1 | h1) | h1) | h1) | h1 <;> subst h1 <;>
      exact absurd h (by decide)

theorem wordHyphen_not_ws (x : Char) (h : isWordHyphen x = true) :
    isWsCh x = false := by
  cases hp : isWsCh x
  · rfl
  · exfalso
    simp only [isWsCh, Bool.or_eq_true, decide_eq_true_eq] at hp
    rcases hp with ((((h1 | h1) | h1) | h1) | h1) | h1 <;> subst h1 <;>
      exact absurd h (by decide)

theorem dropWhile_eq_self_of_head {p : Char → Bool} : ∀ l : List Char,
    (∀ c ∈ l, p c = false) → l.dropWhile p = l := by
  intro l h
  cases l with
  | nil => rfl
  | cons c cs => simp [List.dropWhile, h c (List.mem_cons_self c cs)]

theorem trimWs_eq_self (l : List Char) (h : ∀ c ∈ l, isWsCh c = false) :
    trimWs l = l := by
  unfold trimWs
  rw [dropWhile_eq_self_of_head l h]
  rw [dropWhile_eq_self_of_head l.reverse (fun c hc => h c (List.mem_reverse.mp hc))]
  exact List.reverse_reverse l

theorem replaceWsRunsGo_id (b : Bool) : ∀ l : List Char,
    (∀ c ∈ l, isWsCh c = false) → replaceWsRunsGo b l = l := by
  intro l
  induction l generalizing b with
  | nil => intro; rfl
  | cons c cs ih =>
    intro h
    simp only [replaceWsRunsGo, h c (List.mem_cons_self c cs), Bool.false_eq_true,
      if_false]
    rw [ih false (fun d hd => h d (List.mem_cons_of_mem c hd))]

theorem canonTail_decomp : ∀ cs : List Char, isCanonicalDbraceTail cs = true →
    ∃ inner, cs = inner ++ ['\x7d', '\x7d'] ∧ inner.all isWordHyphen = true := by
  intro cs
  induction cs with
  | nil => intro h; exact absurd h (by decide)
  | cons c cs ih =>
    intro h
    simp only [isCanonicalDbraceTail] at h
    split at h
    · rename_i hc
      subst hc
      have : cs = ['\x7d'] := by
        cases hcs : cs == ['\x7d']
        · rw [hcs] at h; exact absurd h (by decide)
        · exact eq_of_beq hcs
      subst this
      exact ⟨[], rfl, rfl⟩
    · simp only [Bool.and_eq_true] at h
      obtain ⟨inner, hcs, hall⟩ := ih h.2
      exact ⟨c :: inner, by simp [hcs], by simp [List.all_cons, h.1, hall]⟩

theorem cleanVarName_canonical (v : List Char) (h : isCanonicalDbrace v = true) :
    ('\x7b' :: '\x7b' :: (cleanVarName v ++ ['\x7d', '\x7d'])) = v := by
  unfold isCanonicalDbrace at h
  split at h
  case h_2 => exact absurd h (by simp)
  case h_1 c cs =>
    simp only [Bool.and_eq_true] at h
    obtain ⟨inner, hcs, hall⟩ := canonTail_decomp cs h.2
    subst hcs
    have hwh : ∀ x ∈ c :: inner, isWordHyphen x = true := by
      intro x hx
      rcases List.mem_cons.mp hx with hx | hx
      · subst hx; exact h.1
      · exact (List.all_eq_true.mp hall) x hx
    have hfilter : ('\x7b' :: '\x7b' :: c :: (inner ++ ['\x7d', '\x7d'])).filter
        (fun x => !isVarPunct x) = c :: inner := by
      have h1 : (c :: inner).filter (fun x => !isVarPunct x) = c :: inner := by
        rw [List.filter_eq_self]
        intro a ha
        simp [wordHyphen_not_punct a (hwh a ha)]
      have hsplit : ('\x7b' :: '\x7b' :: c :: (inner ++ ['\x7d', '\x7d']))
          = ['\x7b', '\x7b'] ++ ((c :: inner) ++ ['\x7d', '\x7d']) := by simp
      rw [hsplit, List.filter_append, List.filter_append, h1]
      rw [show List.filter (fun x => !isVarPunct x) ['\x7b', '\x7b'] = [] from by decide]
      rw [show List.filter (fun x => !isVarPunct x) ['\x7d', '\x7d'] = [] from by decide]
      simp
    have hnws : ∀ x ∈ c :: inner, isWsCh x = false :=
      fun x hx => wordHyphen_not_ws x (hwh x hx)
    unfold cleanVarName
    rw [hfilter, trimWs_eq_self _ hnws, replaceWsRunsGo_id _ _ hnws]
    rfl

theorem ftvStep_id (acc : List Char × List (List Char × List Char))
    (v : List Char) (h : isCanonicalDbrace v = true) : ftvStep acc v = acc := by
  simp only [ftvStep]
  rw [cleanVarName_canonical v h]
  simp

theorem foldl_ftvStep_id : ∀ (vars : List (List Char))
    (acc : List Char × List (List Char × List Char)),
    (∀ v ∈ vars, isCanonicalDbrace v = true) → vars.foldl ftvStep acc = acc := by
  intro vars
  induction vars with
  | nil => intro acc _; rfl
  | cons v vs ih =>
    intro acc h
    rw [List.foldl_cons, ftvStep_id acc v (h v (List.mem_cons_self v vs))]
    exact ih acc (fun w hw => h w (List.mem_cons_of_mem v hw))

/-- Pass 2 is the identity when every variable token found by the combined
scan is already canonical. -/
theorem formatTemplateVariables_id (s : List Char)
    (h : (scanCombinedVars s).all isCanonicalDbrace = true) :
    formatTemplateVariables s = (s, []) := by
  simp only [formatTemplateVariables]
  split
  · rfl
  · rw [foldl_ftvStep_id _ _ (List.all_eq_true.mp h)]
    simp

/-- Is every recognized line-start section header already fully uppercase on
this line? -/
def lineHeaderUpper (l : List Char) : Bool :=
  match headerOfLine l with
  | some hd => hd == upperList hd
  | none => true

/-- All recognized line-start section headers of the text are uppercase. -/
def headersUppercase (s : List Char) : Bool :=
  (splitOnNl s).all lineHeaderUpper

/-- No line of the text begins with a bullet glyph. -/
def noBulletLines (s : List Char) : Bool :=
  (splitOnNl s).all (fun l => !lineStartsBullet l)

/-- No line of the text ends in a space or tab. -/
def noTrailingWs (s : List Char) : Bool :=
  (splitOnNl s).all (fun l => !hasTrailingWsTab l)

theorem upLine_id (l : List Char) (h : lineHeaderUpper l = true) : upLine l = l := by
  unfold lineHeaderUpper headerOfLine at h
  unfold upLine
  cases hn : labelColonLenCI l with
  | none => rfl
  | some n =>
    rw [hn] at h
    simp only [Option.map] at h
    have heq : l.take n = upperList (l.take n) := eq_of_beq h
    show upperList (l.take n) ++ l.drop n = l
    rw [← heq]
    exact List.take_append_drop n l

theorem upLabels_id (s : List Char) (h : headersUppercase s = true) :
    upLabels s = s := by
  unfold upLabels
  rw [map_id_of_mem upLine (splitOnNl s)
    (fun l hl => upLine_id l ((List.all_eq_true.mp h) l hl))]
  exact joinNl_splitOnNl s

theorem enforceSpacingFuel_id : ∀ (fuel : Nat) (s : List Char),
    hasUnspacedLabelFuel fuel s = false → enforceSpacingFuel fuel s = s := by
  intro fuel
  induction fuel with
  | zero => intro s _; rfl
  | succ fuel ih =>
    intro s h
    match s with
    | [] => rfl
    | [c] => rfl
    | c :: c2 :: cs =>
      simp only [hasUnspacedLabelFuel] at h
      simp only [enforceSpacingFuel]
      by_cases hc2 : c2 = '\n'
      · rw [if_pos hc2] at h ⊢
        rw [Bool.or_eq_false_iff] at h
        by_cases hc : c = '\n'
        · rw [if_pos hc, ih _ h.2]
        · rw [if_neg hc]
          have hnone : labelColonAtUpper cs = none := by
            cases hl : labelColonAtUpper cs with
            | none => rfl
            | some lr =>
              exfalso
              have := h.1
              rw [hl] at this
              simp [hc] at this
          rw [hnone]
          rw [ih _ h.2]
      · rw [if_neg hc2] at h ⊢
        rw [ih _ h]

theorem enforceSpacing_id (s : List Char) (h : hasUnspacedLabel s = false) :
    enforceSpacing s = s :=
  enforceSpacingFuel_id s.length s h

theorem stripLineEndWs_id (l : List Char) (h : hasTrailingWsTab l = false) :
    stripLineEndWs l = l := by
  unfold stripLineEndWs
  unfold hasTrailingWsTab at h
  cases hr : l.reverse with
  | nil =>
    have hl : l = [] := by
      cases l with
      | nil => rfl
      | cons x xs => simp at hr
    subst hl
    rfl
  | cons c t =>
    rw [hr] at h
    have h' : (decide (c = ' ') || decide (c = '\t')) = false := h
    have hd : List.dropWhile (fun c => decide (c = ' ') || decide (c = '\t')) (c :: t)
        = c :: t := by
      simp [List.dropWhile, h']
    rw [hd, ← hr, List.reverse_reverse]

theorem stripTrailingWs_id (s : List Char) (h : noTrailingWs s = true) :
    stripTrailingWs s = s := by
  unfold stripTrailingWs
  rw [map_id_of_mem stripLineEndWs (splitOnNl s) (fun l hl => stripLineEndWs_id l (by
    have := (List.all_eq_true.mp h) l hl
    simpa using this))]
  exact joinNl_splitOnNl s

/-- Pass 3 is the identity when headers are uppercase, every section label is
already preceded by a blank line, no line starts with a bullet glyph and no
line has trailing whitespace. -/
theorem improveFormatting_id (s : List Char)
    (h2 : headersUppercase s = true) (h3 : hasUnspacedLabel s = false)
    (h5 : noBulletLines s = true) (h6 : noTrailingWs s = true) :
    improveFormatting s = (s, []) := by
  simp only [improveFormatting]
  rw [upLabels_id s h2, enforceSpacing_id s h3]
  rw [any_eq_false_of_all_neg _ _ h5]
  simp only [Bool.false_eq_true, if_false]
  rw [stripTrailingWs_id s h6]
  simp

/-- The normalized forms of the lines that the deduplication pass actually
compares (nonblank, non-label lines), in order. -/
def relNormsOf (ls : List (List Char)) : List (List Char) :=
  (ls.map (fun l => lowerList (trimWs l))).filter
    (fun n => !(n.isEmpty || (labelColonLenCI n).isSome))

def relevantNorms (s : List Char) : List (List Char) :=
  relNormsOf (splitOnNl s)

theorem rrGo_clean : ∀ (ls seen dups acc : List (List Char)),
    (relNormsOf ls).Nodup →
    (∀ n ∈ relNormsOf ls, n ∉ seen) →
    rrGo seen dups acc ls = (acc.reverse ++ ls, dups) := by
  intro ls
  induction ls with
  | nil => intro seen dups acc _ _; simp [rrGo]
  | cons l rest ih =>
    intro seen dups acc hnd hdisj
    simp only [rrGo]
    by_cases hskip : ((lowerList (trimWs l)).isEmpty
        || (labelColonLenCI (lowerList (trimWs l))).isSome) = true
    · rw [if_pos hskip]
      have hred : relNormsOf (l :: rest) = relNormsOf rest := by
        simp only [relNormsOf, List.map_cons, List.filter_cons, hskip,
          Bool.not_true, Bool.false_eq_true, if_false]
      rw [hred] at hnd hdisj
      rw [ih seen dups (l :: acc) hnd hdisj]
      simp
    · rw [if_neg hskip]
      have hfalse : ((lowerList (trimWs l)).isEmpty
          || (labelColonLenCI (lowerList (trimWs l))).isSome) = false :=
        Bool.not_eq_true _ ▸ Bool.of_not_eq_true hskip
      have hred : relNormsOf (l :: rest)
          = lowerList (trimWs l) :: relNormsOf rest := by
        simp only [relNormsOf, List.map_cons, List.filter_cons, hfalse,
          Bool.not_false, if_true]
      rw [hred] at hnd hdisj
      have hnd' := (List.nodup_cons.mp hnd)
      have hmemhead : lowerList (trimWs l) ∉ seen :=
        hdisj _ (List.mem_cons_self _ _)
      have hcont : seen.contains (lowerList (trimWs l)) = false := by
        cases hc : seen.contains (lowerList (trimWs l))
        · rfl
        · exfalso
          apply hmemhead
          simpa using hc
      rw [hcont]
      simp only [Bool.false_eq_true, if_false]
      have hdisj' : ∀ n ∈ relNormsOf rest, n ∉ seen ++ [lowerList (trimWs l)] := by
        intro n hn
        rw [List.mem_append]
        rintro (hs | hs)
        · exact hdisj n (List.mem_cons_of_mem _ hn) hs
        · rw [List.mem_singleton] at hs
          subst hs
          exact hnd'.1 hn
      rw [ih (seen ++ [lowerList (trimWs l)]) dups (l :: acc) hnd'.2 hdisj']
      simp

/-- Pass 4 is the identity when the compared line norms are pairwise
distinct. -/
theorem removeRedundancies_id (s : List Char) (h : (relevantNorms s).Nodup) :
    removeRedundancies s = (s, []) := by
  simp only [removeRedundancies]
  rw [rrGo_clean (splitOnNl s) [] [] [] h (fun n _ hc => List.not_mem_nil n hc)]
  simp

/-- The normalization premises of claim C6 (as amended): all four sections
present at line start, fully uppercase labels each preceded by a blank line,
only canonical double-brace variable tokens, no bullet lines, no trailing
whitespace, and no duplicate non-label lines (up to trimming and case). -/
def normalizedTemplatePre (s : List Char) : Prop :=
  identifySections s = ⟨true, true, true, true⟩ ∧
  headersUppercase s = true ∧
  hasUnspacedLabel s = false ∧
  (scanCombinedVars s).all isCanonicalDbrace = true ∧
  noBulletLines s = true ∧
  noTrailingWs s = true ∧
  (relevantNorms s).Nodup

/-- C6 (amended): enhancing a template that is already normalized in the
claim's sense AND has no bullet lines at all returns the content unchanged
with an empty change log.  (The bullet-line exclusion replaces the claim's
"a single bullet glyph `-`": whenever any bullet line exists, the bullet
pass logs a change even when the text is unchanged, see the
counterexample.) -/
theorem claim_C6_enhance_id_normalized (s : List Char)
    (h : normalizedTemplatePre s) : enhanceTemplate s = .ok ⟨s, [], s⟩ := by
  obtain ⟨h1, h2, h3, h4, h5, h6, h7⟩ := h
  unfold enhanceTemplate
  rw [h1, addMissingSections_id]
  show Except.ok (enhancePasses s (s, [])) = _
  simp only [enhancePasses, formatTemplateVariables_id s h4,
    improveFormatting_id s h2 h3 h5 h6, removeRedundancies_id s h7]
  simp

/-- Concrete inputs for C6: a normalized template with a `- ` bullet line
(the counterexample) and one without bullets (the witness). -/
def c6Input : List Char :=
  ("ROLE: Helper\n\nCONTEXT: Things\n\nTASK: Do it\n- item one\n\nFORMAT: Text").data

def c6WitnessInput : List Char :=
  ("ROLE: Helper\n\nCONTEXT: Things\n\nTASK: Do it\n\nFORMAT: Text").data

/-- The distinct bullet glyphs used at line starts. -/
def bulletGlyphsUsed (s : List Char) : List Char :=
  ((splitOnNl s).filterMap (fun l =>
    match l with
    | g :: _ => if isBulletGlyph g then some g else none
    | [] => none)).dedup

/-- C6 (counterexample to the claim as stated): `c6Input` satisfies every
premise of the claim — all four sections present at line start, uppercase
labels each preceded by a blank line, only canonical variables, a single
bullet glyph `-`, no trailing whitespace, no duplicate non-label lines — and
`enhance` indeed returns `enhancedContent = originalContent`, but the change
log is NOT empty: the bullet pass logs "Standardized bullet point format"
whenever any bullet line exists, even though it rewrites nothing. -/
theorem claim_C6_counterexample :
    identifySections c6Input = ⟨true, true, true, true⟩
    ∧ headersUppercase c6Input = true
    ∧ hasUnspacedLabel c6Input = false
    ∧ (scanCombinedVars c6Input).all isCanonicalDbrace = true
    ∧ bulletGlyphsUsed c6Input = ['-']
    ∧ noTrailingWs c6Input = true
    ∧ (relevantNorms c6Input).Nodup
    ∧ enhanceTemplate c6Input
        = .ok ⟨c6Input, ["Standardized bullet point format to \"-\""], c6Input⟩ := by
  set_option maxHeartbeats 4000000 in
  set_option maxRecDepth 4096 in
  refine ⟨by decide, by decide, by decide, by decide, by decide, by decide,
    by decide, by decide⟩

theorem claim_C6_witness :
    normalizedTemplatePre c6WitnessInput
    ∧ enhanceTemplate c6WitnessInput = .ok ⟨c6WitnessInput, [], c6WitnessInput⟩ :=
  ⟨by
      unfold normalizedTemplatePre
      set_option maxHeartbeats 4000000 in
      set_option maxRecDepth 4096 in
      refine ⟨by decide, by decide, by decide, by decide, by decide, by decide,
        by decide⟩,
    claim_C6_enhance_id_normalized c6WitnessInput (by
      unfold normalizedTemplatePre
      set_option maxHeartbeats 4000000 in
      set_option maxRecDepth 4096 in
      refine ⟨by decide, by decide, by decide, by decide, by decide, by decide,
        by decide⟩)⟩

end TemplateReview
